import Mathlib

/-!
Shallow embedding of the QuantEngine core (MarketData interpolation,
EuropeanStockOption, BlackScholesEngine) and verification of its
specification.

Modelling conventions:
* The generic numeric type `T` of the C++ templates is a
  `LinearOrderedField α`; idealized exact arithmetic stands in for
  floating point, except that each division the C++ can actually perform
  with a zero denominator is modelled explicitly (see `Value.nan`).
* `std::map<T,T>` (the yield curve) is a key-sorted association list,
  `std::map<std::pair<T,T>,T>` (the volatility surface) an association
  list sorted by the lexicographic pair order; `std::map::upper_bound` /
  `std::lower_bound` on the sorted vectors become structural scans with
  the same first-element-not-less semantics.
* C++ exceptions become `Except Err _`; the distinct exception messages of
  the source are carried where a claim depends on them.  `std::map::at` on
  an absent key (`std::out_of_range`) is `Err.atKeyMissing`; the engine's
  wrapped missing-corner error is `Err.missingPoint`.
* IEEE `0.0/0.0` is `NaN`.  The only reachable zero-denominator division
  in the core is `x_ratio`/`y_ratio` in `MarketData::getVolatility` when a
  bracketing axis collapses (`k0 == k1` or `t0 == t1`), where the
  numerator is then also exactly zero; a query result is therefore a
  `Value α` that is either a number or `nan`, and the collapsed-axis
  blend produces `nan` exactly where the C++ produces `NaN`.
-/

namespace QuantEngine

/-- Error taxonomy of the core, one constructor per distinct C++ throw site
(`invalidArgument` carries the exception message, `missingPoint` the
coordinates the engine formats into its message). -/
inductive Err (α : Type) where
  | invalidArgument (msg : String)
  | emptyCurve
  | uninitializedSurface
  | insufficientData
  | outOfBounds (msg : String)
  | missingPoint (k t : α)
  | atKeyMissing
  | engineNotSet
  deriving DecidableEq, Repr

/-- A floating-point result: an (idealized, exact) number or `NaN`. -/
inductive Value (α : Type) where
  | num (x : α)
  | nan
  deriving DecidableEq, Repr

/-- `Value` multiplication by a scalar on the right, as IEEE multiplication
behaves on a possibly-NaN left operand (`NaN * c = NaN`). -/
def Value.scale {α : Type} [Mul α] : Value α → α → Value α
  | .num x, c => .num (x * c)
  | .nan, _ => .nan

/-- State of `MarketData<T>`: the yield curve map, the volatility surface
map, and the two derived sorted strike/maturity vectors. -/
structure MarketData (α : Type) where
  yield_curve : List (α × α)
  vol_surface : List ((α × α) × α)
  strikes : List α
  maturities : List α
  deriving DecidableEq, Repr

/-- A default-constructed (empty) `MarketData`. -/
def emptyMarketData {α : Type} : MarketData α := ⟨[], [], [], []⟩

variable {α : Type} [LinearOrderedField α]

/-- `std::map` insert-or-assign (`m[key] = value`) on a key-sorted
association list. -/
def insertAssoc (t r : α) : List (α × α) → List (α × α)
  | [] => [(t, r)]
  | p :: ps =>
    if t < p.1 then (t, r) :: p :: ps
    else if t = p.1 then (t, r) :: ps
    else p :: insertAssoc t r ps

/-- `std::map` insert-or-assign on the volatility surface, keyed by the
lexicographic order on `(strike, maturity)` pairs. -/
def insertSurf (k : α × α) (v : α) : List ((α × α) × α) → List ((α × α) × α)
  | [] => [(k, v)]
  | e :: es =>
    if k.1 < e.1.1 ∨ (k.1 = e.1.1 ∧ k.2 < e.1.2) then (k, v) :: e :: es
    else if k = e.1 then (k, v) :: es
    else e :: insertSurf k v es

/-- `std::map::find` on the surface: the stored value at an exactly
matching key, if any. -/
def lookupSurf (s : List ((α × α) × α)) (k : α × α) : Option α :=
  match s with
  | [] => none
  | e :: es => if e.1 = k then some e.2 else lookupSurf es k

/-- The `std::lower_bound` insert-if-absent of `MarketData::addVolatility`
on a sorted duplicate-free vector. -/
def insertSorted (x : α) : List α → List α
  | [] => [x]
  | y :: ys =>
    if x < y then x :: y :: ys
    else if x = y then y :: ys
    else y :: insertSorted x ys

/-- `MarketData::addRiskFreeRate`: validates, then stores the curve point. -/
def addRiskFreeRate (md : MarketData α) (time rate : α) :
    Except (Err α) (MarketData α) :=
  if time < 0 ∨ rate < 0 then .error (.invalidArgument "Invalid time/rate")
  else .ok { md with yield_curve := insertAssoc time rate md.yield_curve }

/-- `MarketData::addVolatility`: validates, stores the surface point, and
maintains the sorted strike/maturity vectors by insert-if-absent. -/
def addVolatility (md : MarketData α) (strike maturity volatility : α) :
    Except (Err α) (MarketData α) :=
  if strike ≤ 0 ∨ maturity < 0 ∨ volatility < 0 then
    .error (.invalidArgument "Invalid strike/maturity/volatility")
  else .ok { md with
    vol_surface := insertSurf (strike, maturity) volatility md.vol_surface
    strikes := insertSorted strike md.strikes
    maturities := insertSorted maturity md.maturities }

/-- The interpolation walk of `MarketData::getRiskFreeRate` after the
`upper_bound(time) == begin()` case is excluded: `prev` is the last entry
with key at most `time`; on finding the first entry with key above `time`
it interpolates (with the epsilon guard), and past the end it returns the
last entry's rate. -/
def rateLoop (eps time : α) (prev : α × α) : List (α × α) → α
  | [] => prev.2
  | q :: qs =>
    if time < q.1 then
      if q.1 - prev.1 < eps then prev.2
      else prev.2 + (time - prev.1) / (q.1 - prev.1) * (q.2 - prev.2)
    else rateLoop eps time q qs

/-- `MarketData::getRiskFreeRate`.  `eps` is
`std::numeric_limits<T>::epsilon()` of the instantiated numeric type. -/
def getRiskFreeRate (md : MarketData α) (eps time : α) : Except (Err α) α :=
  match md.yield_curve with
  | [] => .error .emptyCurve
  | [p] => .ok p.2
  | p :: ps => if time < p.1 then .ok p.2 else .ok (rateLoop eps time p ps)

/-- The three-way `std::lower_bound` bracket of `MarketData::getVolatility`
once past the first element: `prev` is the element before the scan
position; the first element `y` with `x ≤ y` yields `(prev, y)`, and a
scan falling off the end yields the collapsed `(last, last)`. -/
def bracketGo (x prev : α) : List α → α × α
  | [] => (prev, prev)
  | y :: ys => if x ≤ y then (prev, y) else bracketGo x y ys

/-- The bracket of `MarketData::getVolatility` on a sorted vector:
`lower_bound == begin()` collapses to the front element, otherwise the
scan of `bracketGo` runs. -/
def bracket (x : α) : List α → α × α
  | [] => (x, x)
  | y :: ys => if x ≤ y then (y, y) else bracketGo x y ys

/-- The `get_vol` helper of `MarketData::getVolatility`: a required grid
corner, failing with the formatted missing-point error when absent. -/
def reqVol (s : List ((α × α) × α)) (k t : α) : Except (Err α) α :=
  match lookupSurf s (k, t) with
  | some v => .ok v
  | none => .error (.missingPoint k t)

/-- `MarketData::getVolatility`.  The final blend is modelled exactly: when
the strike or maturity bracket collapsed (`k0 = k1` or `t0 = t1`) the C++
divides `0.0` by `0.0` computing `x_ratio`/`y_ratio` (the bounds checks
force the query coordinate to equal the collapsed bracket value), so the
IEEE result is `NaN`, modelled as `Value.nan`; with both denominators
nonzero the rational blend is exact. -/
def getVolatility (md : MarketData α) (strike maturity : α) :
    Except (Err α) (Value α) :=
  match lookupSurf md.vol_surface (strike, maturity) with
  | some v => .ok (.num v)
  | none =>
    if md.strikes.length = 1 ∧ md.maturities.length = 1 then
      match lookupSurf md.vol_surface (md.strikes.headD 0, md.maturities.headD 0) with
      | some v => .ok (.num v)
      | none => .error .atKeyMissing
    else if md.strikes.isEmpty ∨ md.maturities.isEmpty then
      .error .uninitializedSurface
    else if md.strikes.length < 2 ∨ md.maturities.length < 2 then
      .error .insufficientData
    else if strike < md.strikes.headD 0 ∨ md.strikes.getLastD 0 < strike then
      .error (.outOfBounds "Strike out of bounds")
    else if maturity < md.maturities.headD 0 ∨ md.maturities.getLastD 0 < maturity then
      .error (.outOfBounds "Maturity out of bounds")
    else
      let kb := bracket strike md.strikes
      let tb := bracket maturity md.maturities
      if kb.1 = kb.2 ∧ tb.1 = tb.2 then
        match lookupSurf md.vol_surface (kb.1, tb.1) with
        | some v => .ok (.num v)
        | none => .error .atKeyMissing
      else do
        let v00 ← reqVol md.vol_surface kb.1 tb.1
        let v01 ← if tb.1 = tb.2 then pure v00 else reqVol md.vol_surface kb.1 tb.2
        let v10 ← if kb.1 = kb.2 then pure v00 else reqVol md.vol_surface kb.2 tb.1
        let v11 ← if kb.1 = kb.2 ∨ tb.1 = tb.2 then pure v00
                  else reqVol md.vol_surface kb.2 tb.2
        if kb.1 = kb.2 ∨ tb.1 = tb.2 then
          pure Value.nan
        else
          let x := (strike - kb.1) / (kb.2 - kb.1)
          let y := (maturity - tb.1) / (tb.2 - tb.1)
          pure (.num ((1 - x) * (1 - y) * v00 + (1 - x) * y * v01 +
            x * (1 - y) * v10 + x * y * v11))

/-- One mutating `MarketData` operation (queries are `const` and do not
change state). -/
inductive Op (α : Type) where
  | addRate (t r : α)
  | addVol (s m v : α)

/-- Apply one operation; a validation failure throws before any mutation in
the C++, so the failing case leaves the state unchanged. -/
def applyOp (md : MarketData α) : Op α → MarketData α
  | .addRate t r => (addRiskFreeRate md t r).toOption.getD md
  | .addVol s m v => (addVolatility md s m v).toOption.getD md

/-- Run a sequence of operations from the empty initial state. -/
def runOps (ops : List (Op α)) : MarketData α :=
  ops.foldl applyOp emptyMarketData

/-- The data-model invariant of `MarketData`: the strike and maturity
vectors are sorted ascending, duplicate-free, and are exactly the distinct
first resp. second projections of the volatility surface's key set. -/
def Invariant (md : MarketData α) : Prop :=
  md.strikes.Sorted (· < ·) ∧ md.strikes.Nodup ∧
  md.maturities.Sorted (· < ·) ∧ md.maturities.Nodup ∧
  (∀ k : α, k ∈ md.strikes ↔ ∃ m v, ((k, m), v) ∈ md.vol_surface) ∧
  (∀ m : α, m ∈ md.maturities ↔ ∃ k v, ((k, m), v) ∈ md.vol_surface)

/-- `Instrument<T>::Parameters`. -/
structure Parameters (α : Type) where
  notional : α
  strike : α
  maturity : α
  spotPrice : α
  isCall : Bool
  deriving DecidableEq, Repr

/-- A `PricingEngine<T>` as the record of its two virtual computations
(the dispatch target an instrument stores and calls). -/
structure PricingEngine (α : Type) where
  calculatePrice : Parameters α → MarketData α → Except (Err α) (Value α)
  calculateGreeks : Parameters α → MarketData α →
    Except (Err α) (List (String × Value α))

/-- `EuropeanStockOption<T>`: parameters, an optional shared engine, and
an owned market-data snapshot. -/
structure EuropeanStockOption (α : Type) where
  params : Parameters α
  pricingEngine : Option (PricingEngine α)
  marketData : MarketData α

/-- `EuropeanStockOption::validate`, one check per source line in source
order, each with its field-naming message. -/
def validate (p : Parameters α) : Except (Err α) Unit :=
  if p.strike ≤ 0 then .error (.invalidArgument "Strike price must be positive")
  else if p.maturity ≤ 0 then
    .error (.invalidArgument "Time to maturity must be positive")
  else if p.spotPrice ≤ 0 then
    .error (.invalidArgument "Stock spot price must be positive")
  else if p.notional ≤ 0 then
    .error (.invalidArgument "Contract notional must be positive")
  else .ok ()

/-- The `EuropeanStockOption` constructor: validation runs eagerly; only a
validated object is ever produced (no engine attached, empty default
market data). -/
def mkEuropeanStockOption (p : Parameters α) :
    Except (Err α) (EuropeanStockOption α) := do
  let _ ← validate p
  pure ⟨p, none, emptyMarketData⟩

/-- `EuropeanStockOption::price`: engine required; the engine's unit price
is multiplied by the notional. -/
def price (o : EuropeanStockOption α) : Except (Err α) (Value α) :=
  match o.pricingEngine with
  | none => .error .engineNotSet
  | some e =>
    (e.calculatePrice o.params o.marketData).map (fun v => v.scale o.params.notional)

/-- `EuropeanStockOption::greeks`: engine required; the engine's result is
returned with no notional scaling. -/
def greeks (o : EuropeanStockOption α) :
    Except (Err α) (List (String × Value α)) :=
  match o.pricingEngine with
  | none => .error .engineNotSet
  | some e => e.calculateGreeks o.params o.marketData

/-- The mathematical error function computed by `std::erf`:
`erf x = (2/√π) ∫ t in 0..x, exp (-t²)`. -/
noncomputable def erf (x : ℝ) : ℝ :=
  2 / Real.sqrt Real.pi * ∫ t in (0:ℝ)..x, Real.exp (-(t ^ 2))

/-- `std::numeric_limits<double>::epsilon()`, the epsilon the engine's
`double` instantiation hands to `getRiskFreeRate`. -/
noncomputable def doubleEps : ℝ := 1 / 2 ^ 52

namespace BlackScholes

/-- `BlackScholesEngine::d1`. -/
noncomputable def d1 (S K r sigma T : ℝ) : ℝ :=
  (Real.log (S / K) + (r + 0.5 * sigma * sigma) * T) / (sigma * Real.sqrt T)

/-- `BlackScholesEngine::d2`. -/
noncomputable def d2 (S K r sigma T : ℝ) : ℝ :=
  d1 S K r sigma T - sigma * Real.sqrt T

/-- `BlackScholesEngine::N`, the standard normal CDF via `erf`. -/
noncomputable def N (x : ℝ) : ℝ := 0.5 * (1 + erf (x / Real.sqrt 2))

/-- `BlackScholesEngine::N_prime`; the source spells pi as a literal. -/
noncomputable def N_prime (x : ℝ) : ℝ :=
  1 / Real.sqrt (2 * 3.14159265358979323846) * Real.exp (-0.5 * x * x)

/-- `BlackScholesEngine::calculatePrice`: market lookups (exceptions
propagate), then the closed-form call/put formula; a `NaN` volatility
drives the whole formula to `NaN`. -/
noncomputable def calculatePrice (p : Parameters ℝ) (md : MarketData ℝ) :
    Except (Err ℝ) (Value ℝ) := do
  let r ← getRiskFreeRate md doubleEps p.maturity
  let v ← getVolatility md p.strike p.maturity
  match v with
  | .num sigma =>
    let S := p.spotPrice
    let K := p.strike
    let T := p.maturity
    if p.isCall then
      pure (.num (S * N (d1 S K r sigma T) -
        K * Real.exp (-r * T) * N (d2 S K r sigma T)))
    else
      pure (.num (K * Real.exp (-r * T) * N (-(d2 S K r sigma T)) -
        S * N (-(d1 S K r sigma T))))
  | .nan => pure .nan

/-- `std::map<std::string, T>` insert-or-assign on a key-sorted
association list; keys compare in `std::string` order, the lexicographic
order on their character sequences. -/
def mapInsertStr {β : Type} (k : String) (v : β) :
    List (String × β) → List (String × β)
  | [] => [(k, v)]
  | e :: es =>
    if k.data < e.1.data then (k, v) :: e :: es
    else if k = e.1 then (k, v) :: es
    else e :: mapInsertStr k v es

/-- The greeks map `BlackScholesEngine::calculateGreeks` assembles, one
`greeks[...] = ...` insertion per source statement, in source order. -/
noncomputable def greeksList (S K T : ℝ) (isCall : Bool) (r sigma : ℝ) :
    List (String × ℝ) :=
  let d1v := d1 S K r sigma T
  let d2v := d2 S K r sigma T
  let discountFactor := Real.exp (-r * T)
  let nPrime := N_prime d1v
  let g1 := mapInsertStr "delta" (if isCall then N d1v else N d1v - 1) []
  let g2 := mapInsertStr "gamma" (nPrime / (S * sigma * Real.sqrt T)) g1
  let g3 := mapInsertStr "vega" (S * Real.sqrt T * nPrime * 0.01) g2
  let theta := if isCall then
      (-(S * sigma * nPrime) / (2 * Real.sqrt T) -
        r * K * discountFactor * N d2v) / 365
    else
      (-(S * sigma * nPrime) / (2 * Real.sqrt T) +
        r * K * discountFactor * N (-d2v)) / 365
  let g4 := mapInsertStr "theta" theta g3
  if isCall then mapInsertStr "rho" (K * T * discountFactor * N d2v * 0.01) g4
  else mapInsertStr "rho" (-K * T * discountFactor * N (-d2v) * 0.01) g4

/-- `BlackScholesEngine::calculateGreeks`: market lookups, then the map of
the five greeks; a `NaN` volatility makes every entry `NaN` (the keys are
unaffected). -/
noncomputable def calculateGreeks (p : Parameters ℝ) (md : MarketData ℝ) :
    Except (Err ℝ) (List (String × Value ℝ)) := do
  let r ← getRiskFreeRate md doubleEps p.maturity
  let v ← getVolatility md p.strike p.maturity
  match v with
  | .num sigma =>
    pure ((greeksList p.spotPrice p.strike p.maturity p.isCall r sigma).map
      (fun e => (e.1, Value.num e.2)))
  | .nan =>
    pure ((greeksList p.spotPrice p.strike p.maturity p.isCall r 0).map
      (fun e => (e.1, Value.nan)))

end BlackScholes

/-- The Black-Scholes engine as a `PricingEngine ℝ` record (the object an
instrument's `setPricingEngine` stores). -/
noncomputable def blackScholesEngine : PricingEngine ℝ :=
  ⟨BlackScholes.calculatePrice, BlackScholes.calculateGreeks⟩

/-- The closed-form option price exactly as the specification states it:
`call = S·N(d1) − K·e^(−rT)·N(d2)`, `put = K·e^(−rT)·N(−d2) − S·N(−d1)`
with `d1 = (ln(S/K) + (r + σ²/2)·T)/(σ·√T)`, `d2 = d1 − σ·√T` and
`N(x) = 0.5·(1 + erf(x/√2))`. -/
noncomputable def specBlackScholesPrice (S K T r sigma : ℝ) (isCall : Bool) : ℝ :=
  let d1v := (Real.log (S / K) + (r + sigma ^ 2 / 2) * T) / (sigma * Real.sqrt T)
  let d2v := d1v - sigma * Real.sqrt T
  let Nf : ℝ → ℝ := fun x => 0.5 * (1 + erf (x / Real.sqrt 2))
  if isCall then S * Nf d1v - K * Real.exp (-r * T) * Nf d2v
  else K * Real.exp (-r * T) * Nf (-d2v) - S * Nf (-d1v)

lemma rateLoop_flat (eps time : α) (prev : α × α) (l : List (α × α))
    (h : ∀ q ∈ l, q.1 ≤ time) : rateLoop eps time prev l = (l.getLastD prev).2 := by
  induction l generalizing prev with
  | nil => rfl
  | cons q qs ih =>
    have hq : ¬ time < q.1 := not_lt.mpr (h q (List.mem_cons_self q qs))
    simp only [rateLoop, if_neg hq, List.getLastD_cons]
    exact ih q (fun a ha => h a (List.mem_cons_of_mem q ha))

lemma rateLoop_bracket (eps time : α) (p q : α × α) (post : List (α × α)) :
    ∀ (pre : List (α × α)) (prev : α × α),
      (pre ++ p :: q :: post).Sorted (fun a b : α × α => a.1 < b.1) →
      p.1 ≤ time → time < q.1 →
      rateLoop eps time prev (pre ++ p :: q :: post) =
        if q.1 - p.1 < eps then p.2
        else p.2 + (time - p.1) / (q.1 - p.1) * (q.2 - p.2) := by
  intro pre
  induction pre with
  | nil =>
    intro prev _ hp hq
    simp only [List.nil_append, rateLoop, if_neg (not_lt.mpr hp), if_pos hq]
  | cons a pre ih =>
    intro prev hs hp hq
    have hap : a.1 < p.1 := (List.sorted_cons.mp hs).1 p (by simp)
    have ha : ¬ time < a.1 := not_lt.mpr (le_of_lt (lt_of_lt_of_le hap hp))
    simp only [List.cons_append, rateLoop, if_neg ha]
    exact ih a (List.sorted_cons.mp hs).2 hp hq

/-- C2: `getRiskFreeRate` on an empty curve fails with `EmptyCurve`; on a
one-point curve it returns that point's rate for every query time; with at
least two points it returns the first rate for queries before the first
time, the last rate when no stored time exceeds the query, and otherwise
the linear interpolation `r0 + (t-t0)/(t1-t0)*(r1-r0)` between the
bracketing points — so the midpoint of a two-point curve yields
`(r0+r1)/2` — except that `r0` is returned when `t1-t0` is below the
machine epsilon `eps`. -/
theorem getRiskFreeRate_correct (eps time : α) (md : MarketData α)
    (hs : md.yield_curve.Sorted (fun a b : α × α => a.1 < b.1)) :
    (md.yield_curve = [] → getRiskFreeRate md eps time = .error .emptyCurve) ∧
    (∀ t0 r0, md.yield_curve = [(t0, r0)] → getRiskFreeRate md eps time = .ok r0) ∧
    (∀ p ps, md.yield_curve = p :: ps → ps ≠ [] → time < p.1 →
      getRiskFreeRate md eps time = .ok p.2) ∧
    (2 ≤ md.yield_curve.length → (∀ q ∈ md.yield_curve, q.1 ≤ time) →
      getRiskFreeRate md eps time = .ok ((md.yield_curve.getLastD (0, 0)).2)) ∧
    (∀ pre p q post, md.yield_curve = pre ++ p :: q :: post →
      p.1 ≤ time → time < q.1 →
      getRiskFreeRate md eps time =
        .ok (if q.1 - p.1 < eps then p.2
             else p.2 + (time - p.1) / (q.1 - p.1) * (q.2 - p.2))) ∧
    (∀ t0 r0 t1 r1, md.yield_curve = [(t0, r0), (t1, r1)] → t0 < t1 →
      eps ≤ t1 - t0 → time = (t0 + t1) / 2 →
      getRiskFreeRate md eps time = .ok ((r0 + r1) / 2)) := by
  have h5 : ∀ pre (p q : α × α) post, md.yield_curve = pre ++ p :: q :: post →
      p.1 ≤ time → time < q.1 →
      getRiskFreeRate md eps time =
        .ok (if q.1 - p.1 < eps then p.2
             else p.2 + (time - p.1) / (q.1 - p.1) * (q.2 - p.2)) := by
    intro pre p q post hc hp hq
    rw [hc] at hs
    cases pre with
    | nil =>
      simp only [List.nil_append] at hc hs
      simp only [getRiskFreeRate, hc, if_neg (not_lt.mpr hp)]
      simp only [rateLoop, if_pos hq]
    | cons a pre =>
      simp only [List.cons_append] at hc hs
      have hap : a.1 < p.1 := (List.sorted_cons.mp hs).1 p (by simp)
      have ha : ¬ time < a.1 := not_lt.mpr (le_of_lt (lt_of_lt_of_le hap hp))
      have hne : pre ++ p :: q :: post ≠ [] := by
        cases pre <;> simp
      simp only [getRiskFreeRate, hc]
      cases hpp : pre ++ p :: q :: post with
      | nil => exact absurd hpp hne
      | cons b bs =>
        rw [if_neg ha, ← hpp]
        rw [rateLoop_bracket eps time p q post pre a (List.sorted_cons.mp hs).2 hp hq]
  refine ⟨?_, ?_, ?_, ?_, h5, ?_⟩
  · intro h; simp [getRiskFreeRate, h]
  · intro t0 r0 h; simp [getRiskFreeRate, h]
  · intro p ps h hne ht
    cases ps with
    | nil => exact absurd rfl hne
    | cons b bs => simp [getRiskFreeRate, h, ht]
  · intro hlen hall
    cases hc : md.yield_curve with
    | nil => rw [hc] at hlen; simp at hlen
    | cons c0 rest =>
      cases rest with
      | nil => rw [hc] at hlen; simp at hlen
      | cons c1 cs =>
        have h0 : ¬ time < c0.1 := not_lt.mpr (hall c0 (by rw [hc]; simp))
        simp only [getRiskFreeRate, hc, if_neg h0]
        rw [rateLoop_flat eps time c0 (c1 :: cs)
          (fun a ha => hall a (by rw [hc]; exact List.mem_cons_of_mem c0 ha))]
        simp only [List.getLastD_cons]
  · intro t0 r0 t1 r1 hc h01 heps htime
    have := h5 [] (t0, r0) (t1, r1) [] (by rw [hc]; rfl)
      (by rw [htime]; linarith) (by rw [htime]; linarith)
    rw [this, if_neg (not_lt.mpr heps)]
    have hne : t1 - t0 ≠ 0 := ne_of_gt (by linarith)
    congr 1
    rw [htime]
    field_simp
    ring

/-- Witness for C2 at a concrete two-point curve: the midpoint of
`(1/2, 0.02), (1, 0.03)` is priced at `0.025`. -/
theorem getRiskFreeRate_correct_witness :
    ((⟨[((1:ℚ)/2, 2/100), (1, 3/100)], [], [], []⟩ : MarketData ℚ).yield_curve.Sorted
      (fun a b : ℚ × ℚ => a.1 < b.1)) ∧
    getRiskFreeRate (⟨[((1:ℚ)/2, 2/100), (1, 3/100)], [], [], []⟩ : MarketData ℚ)
      (1 / 2 ^ 52) (3 / 4) = .ok (1 / 40) := by
  have hs : ((⟨[((1:ℚ)/2, 2/100), (1, 3/100)], [], [], []⟩ : MarketData ℚ).yield_curve.Sorted
      (fun a b : ℚ × ℚ => a.1 < b.1)) := by
    simp [List.sorted_cons]; norm_num
  refine ⟨hs, ?_⟩
  have h := (getRiskFreeRate_correct (α := ℚ) (1 / 2 ^ 52) (3 / 4) _ hs).2.2.2.2.2
    (1/2) (2/100) 1 (3/100) rfl (by norm_num) (by norm_num) (by norm_num)
  rw [h]
  norm_num

lemma mem_insertSorted (x y : α) (l : List α) :
    y ∈ insertSorted x l ↔ y = x ∨ y ∈ l := by
  induction l with
  | nil => simp [insertSorted]
  | cons z zs ih =>
    by_cases h1 : x < z
    · simp [insertSorted, h1]
    · by_cases h2 : x = z
      · subst h2; simp [insertSorted, h1]
      · simp [insertSorted, h1, h2, ih]; tauto

lemma sorted_insertSorted (x : α) (l : List α) (h : l.Sorted (· < ·)) :
    (insertSorted x l).Sorted (· < ·) := by
  induction l with
  | nil => simp [insertSorted]
  | cons z zs ih =>
    rw [List.sorted_cons] at h
    by_cases h1 : x < z
    · simp only [insertSorted, if_pos h1]
      rw [List.sorted_cons]
      refine ⟨?_, List.sorted_cons.mpr h⟩
      intro b hb
      rcases List.mem_cons.mp hb with rfl | hb
      · exact h1
      · exact lt_trans h1 (h.1 b hb)
    · by_cases h2 : x = z
      · simp only [insertSorted, if_neg h1, if_pos h2]
        exact List.sorted_cons.mpr h
      · have hzx : z < x := lt_of_le_of_ne (not_lt.mp h1) (Ne.symm h2)
        simp only [insertSorted, if_neg h1, if_neg h2]
        rw [List.sorted_cons]
        refine ⟨?_, ih h.2⟩
        intro b hb
        rcases (mem_insertSorted x b zs).mp hb with rfl | hb
        · exact hzx
        · exact h.1 b hb

lemma exists_mem_insertSurf (k : α × α) (v : α) (s : List ((α × α) × α))
    (k' : α × α) :
    (∃ w, (k', w) ∈ insertSurf k v s) ↔ k' = k ∨ ∃ w, (k', w) ∈ s := by
  induction s with
  | nil =>
    constructor
    · rintro ⟨w, hw⟩
      rw [insertSurf] at hw
      exact Or.inl (congrArg Prod.fst (List.mem_singleton.mp hw))
    · rintro (rfl | ⟨w, hw⟩)
      · exact ⟨v, by simp [insertSurf]⟩
      · simp at hw
  | cons e es ih =>
    by_cases h1 : k.1 < e.1.1 ∨ (k.1 = e.1.1 ∧ k.2 < e.1.2)
    · simp only [insertSurf, if_pos h1]
      constructor
      · rintro ⟨w, hw⟩
        rcases List.mem_cons.mp hw with heq | hmem
        · exact Or.inl (congrArg Prod.fst heq)
        · exact Or.inr ⟨w, hmem⟩
      · rintro (rfl | ⟨w, hw⟩)
        · exact ⟨v, List.mem_cons_self _ _⟩
        · exact ⟨w, List.mem_cons_of_mem _ hw⟩
    · by_cases h2 : k = e.1
      · simp only [insertSurf, if_neg h1, if_pos h2]
        constructor
        · rintro ⟨w, hw⟩
          rcases List.mem_cons.mp hw with heq | hmem
          · exact Or.inl (congrArg Prod.fst heq)
          · exact Or.inr ⟨w, List.mem_cons_of_mem _ hmem⟩
        · rintro (rfl | ⟨w, hw⟩)
          · exact ⟨v, List.mem_cons_self _ _⟩
          · rcases List.mem_cons.mp hw with heq | hmem
            · have hk : k' = k := by rw [h2, ← congrArg Prod.fst heq]
              exact ⟨v, by rw [hk]; exact List.mem_cons_self _ _⟩
            · exact ⟨w, List.mem_cons_of_mem _ hmem⟩
      · simp only [insertSurf, if_neg h1, if_neg h2]
        constructor
        · rintro ⟨w, hw⟩
          rcases List.mem_cons.mp hw with heq | hmem
          · exact Or.inr ⟨w, by rw [heq]; exact List.mem_cons_self _ _⟩
          · rcases ih.mp ⟨w, hmem⟩ with hk | ⟨w', hw'⟩
            · exact Or.inl hk
            · exact Or.inr ⟨w', List.mem_cons_of_mem _ hw'⟩
        · rintro (rfl | ⟨w, hw⟩)
          · obtain ⟨w', hw'⟩ := ih.mpr (Or.inl rfl)
            exact ⟨w', List.mem_cons_of_mem _ hw'⟩
          · rcases List.mem_cons.mp hw with heq | hmem
            · exact ⟨w, by rw [heq]; exact List.mem_cons_self _ _⟩
            · obtain ⟨w', hw'⟩ := ih.mpr (Or.inr ⟨w, hmem⟩)
              exact ⟨w', List.mem_cons_of_mem _ hw'⟩

lemma lookupSurf_insertSurf (k : α × α) (v : α) (s : List ((α × α) × α)) :
    lookupSurf (insertSurf k v s) k = some v := by
  induction s with
  | nil => simp [insertSurf, lookupSurf]
  | cons e es ih =>
    by_cases h1 : k.1 < e.1.1 ∨ (k.1 = e.1.1 ∧ k.2 < e.1.2)
    · simp [insertSurf, lookupSurf, h1]
    · by_cases h2 : k = e.1
      · simp [insertSurf, lookupSurf, h1, h2]
      · have hne : ¬ e.1 = k := fun hh => h2 hh.symm
        simp [insertSurf, lookupSurf, h1, h2, hne, ih]

/-- C8: `addRiskFreeRate` fails with `InvalidArgument` exactly when
`time < 0` or `rate < 0`, `addVolatility` exactly when `strike ≤ 0`,
`maturity < 0` or `vol < 0`; a failing call leaves the state unchanged,
a succeeding one inserts or overwrites the value at its key; adding
`(1.0, 0.03)` then `(1.0, 0.04)` makes a query at `1.0` return `0.04`. -/
theorem add_operations_correct (md : MarketData α) (t r s m v : α) :
    ((t < 0 ∨ r < 0) →
      addRiskFreeRate md t r = .error (.invalidArgument "Invalid time/rate")) ∧
    (¬(t < 0 ∨ r < 0) →
      addRiskFreeRate md t r =
        .ok { md with yield_curve := insertAssoc t r md.yield_curve }) ∧
    ((t < 0 ∨ r < 0) → applyOp md (.addRate t r) = md) ∧
    ((s ≤ 0 ∨ m < 0 ∨ v < 0) →
      addVolatility md s m v =
        .error (.invalidArgument "Invalid strike/maturity/volatility")) ∧
    (¬(s ≤ 0 ∨ m < 0 ∨ v < 0) →
      addVolatility md s m v = .ok { md with
        vol_surface := insertSurf (s, m) v md.vol_surface
        strikes := insertSorted s md.strikes
        maturities := insertSorted m md.maturities }) ∧
    ((s ≤ 0 ∨ m < 0 ∨ v < 0) → applyOp md (.addVol s m v) = md) ∧
    (∀ md', addVolatility md s m v = .ok md' →
      lookupSurf md'.vol_surface (s, m) = some v) ∧
    (∀ eps time : α,
      getRiskFreeRate (runOps [Op.addRate 1 (3/100), Op.addRate 1 (4/100)])
        eps time = .ok (4/100)) := by
  refine ⟨?_, ?_, ?_, ?_, ?_, ?_, ?_, ?_⟩
  · intro h; simp [addRiskFreeRate, h]
  · intro h; simp [addRiskFreeRate, h]
  · intro h; simp [applyOp, addRiskFreeRate, h, Except.toOption]
  · intro h; simp [addVolatility, h]
  · intro h; simp [addVolatility, h]
  · intro h; simp [applyOp, addVolatility, h, Except.toOption]
  · intro md' h
    rw [addVolatility] at h
    by_cases hc : s ≤ 0 ∨ m < 0 ∨ v < 0
    · simp [hc] at h
    · simp only [if_neg hc, Except.ok.injEq] at h
      subst h
      exact lookupSurf_insertSurf (s, m) v md.vol_surface
  · intro eps time
    have h1 : ¬((1:α) < 0 ∨ (3:α)/100 < 0) := by push_neg; constructor <;> positivity
    have h2 : ¬((1:α) < 0 ∨ (4:α)/100 < 0) := by push_neg; constructor <;> positivity
    simp [runOps, applyOp, addRiskFreeRate, h1, h2, emptyMarketData, insertAssoc,
      getRiskFreeRate, Except.toOption]

/-- Witness for C8: a negative time is rejected with the source's
`InvalidArgument` message, and the overwrite example returns `0.04`. -/
theorem add_operations_correct_witness :
    ((-1 : ℚ) < 0 ∨ (2 : ℚ) < 0) ∧
    addRiskFreeRate (emptyMarketData : MarketData ℚ) (-1) 2 =
      .error (.invalidArgument "Invalid time/rate") ∧
    getRiskFreeRate (runOps [Op.addRate (1:ℚ) (3/100), Op.addRate 1 (4/100)])
      (1 / 2 ^ 52) 1 = .ok (4/100) := by
  have h := add_operations_correct (emptyMarketData : MarketData ℚ) (-1) 2 1 1 1
  exact ⟨Or.inl (by norm_num), h.1 (Or.inl (by norm_num)),
    h.2.2.2.2.2.2.2 (1 / 2 ^ 52) 1⟩

/-- C7: from the empty initial state, every operation (a failing or
succeeding `addRiskFreeRate`/`addVolatility`; queries are `const`)
preserves the invariant that `strikes_` and `maturities_` are sorted
ascending, duplicate-free, and equal the distinct strike resp. maturity
projections of the volatility surface's key set; on success
`addVolatility` maintains them incrementally by sorted insert-if-absent
of the new coordinates, never by rescanning the surface. -/
theorem marketData_invariant_preserved :
    Invariant (emptyMarketData : MarketData α) ∧
    (∀ (md : MarketData α) (op : Op α), Invariant md → Invariant (applyOp md op)) ∧
    (∀ (md md' : MarketData α) (s m v : α), addVolatility md s m v = .ok md' →
      md'.vol_surface = insertSurf (s, m) v md.vol_surface ∧
      md'.strikes = insertSorted s md.strikes ∧
      md'.maturities = insertSorted m md.maturities) := by
  refine ⟨?_, ?_, ?_⟩
  · simp [Invariant, emptyMarketData]
  · intro md op hInv
    obtain ⟨hs1, hn1, hs2, hn2, hm1, hm2⟩ := hInv
    cases op with
    | addRate t rr =>
      by_cases hc : t < 0 ∨ rr < 0
      · simp [applyOp, addRiskFreeRate, hc]
        exact ⟨hs1, hn1, hs2, hn2, hm1, hm2⟩
      · simp [applyOp, addRiskFreeRate, hc]
        exact ⟨hs1, hn1, hs2, hn2, hm1, hm2⟩
    | addVol s m v =>
      by_cases hc : s ≤ 0 ∨ m < 0 ∨ v < 0
      · simp [applyOp, addVolatility, hc]
        exact ⟨hs1, hn1, hs2, hn2, hm1, hm2⟩
      · simp only [applyOp, addVolatility, if_neg hc, Except.toOption,
          Option.getD_some]
        refine ⟨sorted_insertSorted s _ hs1, (sorted_insertSorted s _ hs1).nodup,
          sorted_insertSorted m _ hs2, (sorted_insertSorted m _ hs2).nodup, ?_, ?_⟩
        · intro k
          rw [mem_insertSorted, hm1 k]
          constructor
          · rintro (rfl | ⟨m', w, hw⟩)
            · exact ⟨m, (exists_mem_insertSurf (k, m) v md.vol_surface (k, m)).mpr
                (Or.inl rfl)⟩
            · exact ⟨m', (exists_mem_insertSurf (s, m) v md.vol_surface (k, m')).mpr
                (Or.inr ⟨w, hw⟩)⟩
          · rintro ⟨m', w, hw⟩
            rcases (exists_mem_insertSurf (s, m) v md.vol_surface (k, m')).mp
              ⟨w, hw⟩ with heq | ⟨w', hw'⟩
            · exact Or.inl (Prod.ext_iff.mp heq).1
            · exact Or.inr ⟨m', w', hw'⟩
        · intro mm
          rw [mem_insertSorted, hm2 mm]
          constructor
          · rintro (rfl | ⟨k', w, hw⟩)
            · exact ⟨s, (exists_mem_insertSurf (s, mm) v md.vol_surface (s, mm)).mpr
                (Or.inl rfl)⟩
            · exact ⟨k', (exists_mem_insertSurf (s, m) v md.vol_surface (k', mm)).mpr
                (Or.inr ⟨w, hw⟩)⟩
          · rintro ⟨k', w, hw⟩
            rcases (exists_mem_insertSurf (s, m) v md.vol_surface (k', mm)).mp
              ⟨w, hw⟩ with heq | ⟨w', hw'⟩
            · exact Or.inl (Prod.ext_iff.mp heq).2
            · exact Or.inr ⟨k', w', hw'⟩
  · intro md md' s m v h
    rw [addVolatility] at h
    by_cases hc : s ≤ 0 ∨ m < 0 ∨ v < 0
    · simp [hc] at h
    · simp only [if_neg hc, Except.ok.injEq] at h
      subst h
      exact ⟨rfl, rfl, rfl⟩

/-- Witness for C7: the invariant holds in the empty state and after a
concrete first insertion. -/
theorem marketData_invariant_preserved_witness :
    Invariant (applyOp (emptyMarketData : MarketData ℚ) (Op.addVol 100 1 (1/5))) :=
  (marketData_invariant_preserved (α := ℚ)).2.1 emptyMarketData _
    (marketData_invariant_preserved (α := ℚ)).1

lemma exists_lookupSurf_of_mem {s : List ((α × α) × α)} {k : α × α} {w : α}
    (h : (k, w) ∈ s) : ∃ v, lookupSurf s k = some v := by
  induction s with
  | nil => simp at h
  | cons e es ih =>
    by_cases he : e.1 = k
    · exact ⟨e.2, by simp [lookupSurf, he]⟩
    · have hm : (k, w) ∈ es := by
        rcases List.mem_cons.mp h with heq | hm
        · exact absurd (congrArg Prod.fst heq.symm) he
        · exact hm
      obtain ⟨v, hv⟩ := ih hm
      exact ⟨v, by simp [lookupSurf, he, hv]⟩

lemma mem_of_lookupSurf {s : List ((α × α) × α)} {k : α × α} {v : α}
    (h : lookupSurf s k = some v) : (k, v) ∈ s := by
  induction s with
  | nil => simp [lookupSurf] at h
  | cons e es ih =>
    obtain ⟨e1, e2⟩ := e
    rw [lookupSurf] at h
    by_cases he : e1 = k
    · simp only [he, if_pos rfl] at h
      injection h with h
      subst he; subst h
      exact List.mem_cons_self _ _
    · simp only [if_neg he] at h
      exact List.mem_cons_of_mem _ (ih h)

lemma headD_le_of_sorted (l : List α) (x d : α) (hs : l.Sorted (· < ·))
    (hx : x ∈ l) : l.headD d ≤ x := by
  cases l with
  | nil => simp at hx
  | cons a as =>
    rcases List.mem_cons.mp hx with rfl | hx
    · simp
    · simp only [List.headD_cons]
      exact le_of_lt ((List.sorted_cons.mp hs).1 x hx)

lemma le_getLastD_of_sorted (l : List α) :
    ∀ (d x : α), l.Sorted (· < ·) → x ∈ l → x ≤ l.getLastD d := by
  induction l with
  | nil => intro d x _ hx; simp at hx
  | cons a as ih =>
    intro d x hs hx
    rw [List.getLastD_cons]
    rcases List.mem_cons.mp hx with rfl | hx
    · cases as with
      | nil => simp [List.getLastD]
      | cons b bs =>
        have hab : x < b := (List.sorted_cons.mp hs).1 b (by simp)
        exact le_of_lt (lt_of_lt_of_le hab
          (ih x b (List.sorted_cons.mp hs).2 (by simp)))
    · exact ih a x (List.sorted_cons.mp hs).2 hx

/-- C6: `getVolatility` returns the stored value directly on an exact key
hit; on a surface with exactly one distinct strike and one distinct
maturity it returns the sole stored value for arbitrary query coordinates
(the bounds checks are bypassed); otherwise it fails with
`UninitializedSurface` when an axis has zero recorded points, with
`InsufficientData` when an axis has fewer than two distinct points, and
with `OutOfBounds` when the strike or maturity lies outside its axis's
recorded front/back (min/max) range. -/
theorem getVolatility_exact_single_errors (md : MarketData α) (s m : α) :
    (∀ v, lookupSurf md.vol_surface (s, m) = some v →
      getVolatility md s m = .ok (.num v)) ∧
    (∀ k0 t0, Invariant md → md.strikes = [k0] → md.maturities = [t0] →
      ∃ v, lookupSurf md.vol_surface (k0, t0) = some v ∧
        ∀ s' m' : α, getVolatility md s' m' = .ok (.num v)) ∧
    (lookupSurf md.vol_surface (s, m) = none →
      (md.strikes = [] ∨ md.maturities = []) →
      getVolatility md s m = .error .uninitializedSurface) ∧
    (lookupSurf md.vol_surface (s, m) = none →
      md.strikes ≠ [] → md.maturities ≠ [] →
      ¬(md.strikes.length = 1 ∧ md.maturities.length = 1) →
      (md.strikes.length < 2 ∨ md.maturities.length < 2) →
      getVolatility md s m = .error .insufficientData) ∧
    (lookupSurf md.vol_surface (s, m) = none →
      2 ≤ md.strikes.length → 2 ≤ md.maturities.length →
      (s < md.strikes.headD 0 ∨ md.strikes.getLastD 0 < s) →
      getVolatility md s m = .error (.outOfBounds "Strike out of bounds")) ∧
    (lookupSurf md.vol_surface (s, m) = none →
      2 ≤ md.strikes.length → 2 ≤ md.maturities.length →
      ¬(s < md.strikes.headD 0 ∨ md.strikes.getLastD 0 < s) →
      (m < md.maturities.headD 0 ∨ md.maturities.getLastD 0 < m) →
      getVolatility md s m = .error (.outOfBounds "Maturity out of bounds")) := by
  refine ⟨?_, ?_, ?_, ?_, ?_, ?_⟩
  · intro v h; simp [getVolatility, h]
  · intro k0 t0 hInv hstk hmat
    obtain ⟨_, _, _, _, hm1, hm2⟩ := hInv
    have hk0 : k0 ∈ md.strikes := by rw [hstk]; exact List.mem_cons_self _ _
    obtain ⟨m1, w, hw⟩ := (hm1 k0).mp hk0
    have hm1mem : m1 ∈ md.maturities := (hm2 m1).mpr ⟨k0, w, hw⟩
    have hm1t0 : m1 = t0 := by rw [hmat] at hm1mem; simpa using hm1mem
    rw [hm1t0] at hw
    obtain ⟨v, hv⟩ := exists_lookupSurf_of_mem hw
    refine ⟨v, hv, ?_⟩
    intro s' m'
    cases hsm : lookupSurf md.vol_surface (s', m') with
    | some w' =>
      have hmem := mem_of_lookupSurf hsm
      have hs' : s' ∈ md.strikes := (hm1 s').mpr ⟨m', w', hmem⟩
      have hm' : m' ∈ md.maturities := (hm2 m').mpr ⟨s', w', hmem⟩
      rw [hstk] at hs'; rw [hmat] at hm'
      have hs'e : s' = k0 := by simpa using hs'
      have hm'e : m' = t0 := by simpa using hm'
      subst hs'e; subst hm'e
      rw [hsm] at hv
      injection hv with hv
      simp [getVolatility, hsm, hv]
    | none =>
      simp [getVolatility, hsm, hstk, hmat, hv]
  · intro h he
    rcases he with he | he <;> simp [getVolatility, h, he]
  · intro h hne1 hne2 hnot1 hlt
    have he : ¬(md.strikes.isEmpty ∨ md.maturities.isEmpty) := by
      simp only [List.isEmpty_iff]
      push_neg
      exact ⟨hne1, hne2⟩
    simp only [getVolatility, h]
    rw [if_neg hnot1, if_neg he, if_pos hlt]
  · intro h hl1 hl2 hbound
    have hn1 : ¬(md.strikes.length = 1 ∧ md.maturities.length = 1) := by omega
    have he : ¬(md.strikes.isEmpty ∨ md.maturities.isEmpty) := by
      simp only [List.isEmpty_iff]
      push_neg
      exact ⟨List.length_pos.mp (by omega), List.length_pos.mp (by omega)⟩
    have hnl : ¬(md.strikes.length < 2 ∨ md.maturities.length < 2) := by omega
    simp only [getVolatility, h]
    rw [if_neg hn1, if_neg he, if_neg hnl, if_pos hbound]
  · intro h hl1 hl2 hsb hmb
    have hn1 : ¬(md.strikes.length = 1 ∧ md.maturities.length = 1) := by omega
    have he : ¬(md.strikes.isEmpty ∨ md.maturities.isEmpty) := by
      simp only [List.isEmpty_iff]
      push_neg
      exact ⟨List.length_pos.mp (by omega), List.length_pos.mp (by omega)⟩
    have hnl : ¬(md.strikes.length < 2 ∨ md.maturities.length < 2) := by omega
    simp only [getVolatility, h]
    rw [if_neg hn1, if_neg he, if_neg hnl, if_neg hsb, if_pos hmb]

/-- Witness for C6: a single-point surface answers a far-away query with
its sole value, and an out-of-range query on a 2x2 surface fails. -/
theorem getVolatility_exact_single_errors_witness :
    getVolatility (⟨[], [((100, 1), 1/5)], [100], [1]⟩ : MarketData ℚ) 120 (3/2) =
      .ok (.num (1/5)) ∧
    getVolatility (⟨[], [((100, 1), 1/5), ((100, 2), 1/4), ((150, 1), 11/50),
        ((150, 2), 7/25)], [100, 150], [1, 2]⟩ : MarketData ℚ) 90 (3/2) =
      .error (.outOfBounds "Strike out of bounds") := by
  constructor
  · have hInv : Invariant (⟨[], [((100, 1), 1/5)], [100], [1]⟩ : MarketData ℚ) := by
      refine ⟨by simp, by simp, by simp, by simp, ?_, ?_⟩ <;>
        intro x <;> constructor
      · rintro hx
        refine ⟨1, 1/5, ?_⟩
        simp at hx
        simp [hx]
      · rintro ⟨m', w, hw⟩
        simp at hw
        simp [hw.1.1]
      · rintro hx
        refine ⟨100, 1/5, ?_⟩
        simp at hx
        simp [hx]
      · rintro ⟨k', w, hw⟩
        simp at hw
        simp [hw.1.2]
    obtain ⟨v, hv, hall⟩ :=
      (getVolatility_exact_single_errors
        (⟨[], [((100, 1), 1/5)], [100], [1]⟩ : MarketData ℚ) 120 (3/2)).2.1
        100 1 hInv rfl rfl
    have h2 := hall 120 (3/2)
    simp only [lookupSurf, if_pos trivial] at hv
    injection hv with hv
    rw [h2, ← hv]
  · refine (getVolatility_exact_single_errors _ 90 (3/2)).2.2.2.2.1 ?_ ?_ ?_ ?_
    · simp [lookupSurf]
    · simp
    · simp
    · left; norm_num

lemma bracketGo_adjacent (x k0 k1 : α) (post : List α) :
    ∀ (pre : List α) (prev : α), (∀ a ∈ pre, a < x) → k0 < x → x ≤ k1 →
      bracketGo x prev (pre ++ k0 :: k1 :: post) = (k0, k1) := by
  intro pre
  induction pre with
  | nil =>
    intro prev _ hk0 hk1
    simp only [List.nil_append, bracketGo, if_neg (not_le.mpr hk0), if_pos hk1]
  | cons a pre ih =>
    intro prev hpre hk0 hk1
    have ha : ¬ x ≤ a := not_le.mpr (hpre a (List.mem_cons_self a pre))
    simp only [List.cons_append, bracketGo, if_neg ha]
    exact ih a (fun b hb => hpre b (List.mem_cons_of_mem a hb)) hk0 hk1

lemma bracket_adjacent (x k0 k1 : α) (pre post : List α)
    (hs : (pre ++ k0 :: k1 :: post).Sorted (· < ·))
    (hk0 : k0 < x) (hk1 : x ≤ k1) :
    bracket x (pre ++ k0 :: k1 :: post) = (k0, k1) := by
  have hpre : ∀ a ∈ pre, a < x := by
    intro a ha
    have := (List.pairwise_append.mp hs).2.2 a ha k0 (by simp)
    exact lt_trans this hk0
  cases pre with
  | nil =>
    simp only [List.nil_append, bracket, if_neg (not_le.mpr hk0)]
    simp only [bracketGo, if_pos hk1]
  | cons a pre =>
    have ha : ¬ x ≤ a := not_le.mpr (hpre a (by simp))
    simp only [List.cons_append, bracket, if_neg ha]
    exact bracketGo_adjacent x k0 k1 post pre a
      (fun b hb => hpre b (List.mem_cons_of_mem a hb)) hk0 hk1

lemma not_mem_between (x k0 k1 : α) (pre post : List α)
    (hs : (pre ++ k0 :: k1 :: post).Sorted (· < ·))
    (hk0 : k0 < x) (hk1 : x < k1) : x ∉ pre ++ k0 :: k1 :: post := by
  intro hmem
  rcases List.mem_append.mp hmem with hpre | hrest
  · have := (List.pairwise_append.mp hs).2.2 x hpre k0 (by simp)
    exact absurd hk0 (not_lt.mpr (le_of_lt this))
  · rcases List.mem_cons.mp hrest with rfl | hrest
    · exact lt_irrefl x hk0
    · rcases List.mem_cons.mp hrest with rfl | hpost
      · exact lt_irrefl x hk1
      · have hp := (List.pairwise_append.mp hs).2.1
        have : k1 < x := (List.sorted_cons.mp (List.sorted_cons.mp hp).2).1 x hpost
        exact absurd hk1 (not_lt.mpr (le_of_lt this))

lemma getVolatility_interior (md : MarketData α) (s m k0 k1 t0 t1 : α)
    (preK postK preT postT : List α)
    (hInv : Invariant md)
    (hstk : md.strikes = preK ++ k0 :: k1 :: postK)
    (hmat : md.maturities = preT ++ t0 :: t1 :: postT)
    (hk0 : k0 < s) (hk1 : s < k1) (ht0 : t0 < m) (ht1 : m < t1) :
    getVolatility md s m = (do
      let v00 ← reqVol md.vol_surface k0 t0
      let v01 ← reqVol md.vol_surface k0 t1
      let v10 ← reqVol md.vol_surface k1 t0
      let v11 ← reqVol md.vol_surface k1 t1
      pure (.num ((1 - (s - k0) / (k1 - k0)) * (1 - (m - t0) / (t1 - t0)) * v00 +
        (1 - (s - k0) / (k1 - k0)) * ((m - t0) / (t1 - t0)) * v01 +
        (s - k0) / (k1 - k0) * (1 - (m - t0) / (t1 - t0)) * v10 +
        (s - k0) / (k1 - k0) * ((m - t0) / (t1 - t0)) * v11))) := by
  obtain ⟨hs1, hn1', hs2, hn2', hm1, hm2⟩ := hInv
  have hsortK : (preK ++ k0 :: k1 :: postK).Sorted (· < ·) := hstk ▸ hs1
  have hsortT : (preT ++ t0 :: t1 :: postT).Sorted (· < ·) := hmat ▸ hs2
  have hsnot : s ∉ md.strikes := by
    rw [hstk]; exact not_mem_between s k0 k1 preK postK hsortK hk0 hk1
  have hlookup : lookupSurf md.vol_surface (s, m) = none := by
    cases hl : lookupSurf md.vol_surface (s, m) with
    | none => rfl
    | some w =>
      have hmem := mem_of_lookupSurf hl
      exact absurd ((hm1 s).mpr ⟨m, w, hmem⟩) hsnot
  have hlenS : 2 ≤ md.strikes.length := by rw [hstk]; simp; omega
  have hlenT : 2 ≤ md.maturities.length := by rw [hmat]; simp; omega
  have hn1 : ¬(md.strikes.length = 1 ∧ md.maturities.length = 1) := by omega
  have he : ¬(md.strikes.isEmpty ∨ md.maturities.isEmpty) := by
    simp only [List.isEmpty_iff]
    push_neg
    exact ⟨List.length_pos.mp (by omega), List.length_pos.mp (by omega)⟩
  have hnl : ¬(md.strikes.length < 2 ∨ md.maturities.length < 2) := by omega
  have hk0mem : k0 ∈ md.strikes := by rw [hstk]; simp
  have hk1mem : k1 ∈ md.strikes := by rw [hstk]; simp
  have ht0mem : t0 ∈ md.maturities := by rw [hmat]; simp
  have ht1mem : t1 ∈ md.maturities := by rw [hmat]; simp
  have hsb : ¬(s < md.strikes.headD 0 ∨ md.strikes.getLastD 0 < s) := by
    push_neg
    constructor
    · exact le_trans (headD_le_of_sorted md.strikes k0 0 hs1 hk0mem) (le_of_lt hk0)
    · exact le_trans (le_of_lt hk1) (le_getLastD_of_sorted md.strikes 0 k1 hs1 hk1mem)
  have hmb : ¬(m < md.maturities.headD 0 ∨ md.maturities.getLastD 0 < m) := by
    push_neg
    constructor
    · exact le_trans (headD_le_of_sorted md.maturities t0 0 hs2 ht0mem) (le_of_lt ht0)
    · exact le_trans (le_of_lt ht1) (le_getLastD_of_sorted md.maturities 0 t1 hs2 ht1mem)
  have hbrS : bracket s md.strikes = (k0, k1) := by
    rw [hstk]; exact bracket_adjacent s k0 k1 preK postK hsortK hk0 (le_of_lt hk1)
  have hbrT : bracket m md.maturities = (t0, t1) := by
    rw [hmat]; exact bracket_adjacent m t0 t1 preT postT hsortT ht0 (le_of_lt ht1)
  have hkne : ¬ (k0 = k1) := ne_of_lt (lt_trans hk0 hk1)
  have htne : ¬ (t0 = t1) := ne_of_lt (lt_trans ht0 ht1)
  simp only [getVolatility, hlookup]
  rw [if_neg hn1, if_neg he, if_neg hnl, if_neg hsb, if_neg hmb]
  simp only [hbrS, hbrT]
  rw [if_neg (by simp [hkne])]
  simp only [if_neg hkne, if_neg htne, if_neg (by simp [hkne, htne] : ¬(k0 = k1 ∨ t0 = t1))]

/-- C3: a query strictly between adjacent distinct strikes `k0 < k1` and
adjacent distinct maturities `t0 < t1` with all four corner values stored
returns the bilinear blend
`(1-x)(1-y)·v00 + (1-x)y·v01 + x(1-y)·v10 + xy·v11` with
`x = (s-k0)/(k1-k0)` and `y = (m-t0)/(t1-t0)`; a required corner absent
from the sparse surface makes the query fail with `MissingDataPoint`; on
the 2x2 grid of the specification, `getVolatility 125 1.5 = 0.2375`. -/
theorem getVolatility_bilinear_interior :
    (∀ (β : Type) [LinearOrderedField β] (md : MarketData β)
      (s m k0 k1 t0 t1 : β) (preK postK preT postT : List β),
      Invariant md →
      md.strikes = preK ++ k0 :: k1 :: postK →
      md.maturities = preT ++ t0 :: t1 :: postT →
      k0 < s → s < k1 → t0 < m → m < t1 →
      (∀ v00 v01 v10 v11 : β,
        lookupSurf md.vol_surface (k0, t0) = some v00 →
        lookupSurf md.vol_surface (k0, t1) = some v01 →
        lookupSurf md.vol_surface (k1, t0) = some v10 →
        lookupSurf md.vol_surface (k1, t1) = some v11 →
        getVolatility md s m = .ok (.num (
          (1 - (s - k0) / (k1 - k0)) * (1 - (m - t0) / (t1 - t0)) * v00 +
          (1 - (s - k0) / (k1 - k0)) * ((m - t0) / (t1 - t0)) * v01 +
          (s - k0) / (k1 - k0) * (1 - (m - t0) / (t1 - t0)) * v10 +
          (s - k0) / (k1 - k0) * ((m - t0) / (t1 - t0)) * v11))) ∧
      ((lookupSurf md.vol_surface (k0, t0) = none ∨
        lookupSurf md.vol_surface (k0, t1) = none ∨
        lookupSurf md.vol_surface (k1, t0) = none ∨
        lookupSurf md.vol_surface (k1, t1) = none) →
       ∃ a b : β, getVolatility md s m = .error (.missingPoint a b))) ∧
    getVolatility (⟨[], [((100, 1), 1/5), ((100, 2), 1/4), ((150, 1), 11/50),
      ((150, 2), 7/25)], [100, 150], [1, 2]⟩ : MarketData ℚ) 125 (3/2) =
      .ok (.num 0.2375) := by
  constructor
  · intro β _ md s m k0 k1 t0 t1 preK postK preT postT hInv hstk hmat hk0 hk1 ht0 ht1
    have hred := getVolatility_interior md s m k0 k1 t0 t1 preK postK preT postT
      hInv hstk hmat hk0 hk1 ht0 ht1
    constructor
    · intro v00 v01 v10 v11 h00 h01 h10 h11
      rw [hred]
      simp [reqVol, h00, h01, h10, h11, Bind.bind, Except.bind, Pure.pure, Except.pure]
    · intro hmiss
      rw [hred]
      cases h00 : lookupSurf md.vol_surface (k0, t0) with
      | none => exact ⟨k0, t0, by simp [reqVol, h00, Bind.bind, Except.bind]⟩
      | some v00 =>
      cases h01 : lookupSurf md.vol_surface (k0, t1) with
      | none => exact ⟨k0, t1, by simp [reqVol, h00, h01, Bind.bind, Except.bind]⟩
      | some v01 =>
      cases h10 : lookupSurf md.vol_surface (k1, t0) with
      | none => exact ⟨k1, t0, by simp [reqVol, h00, h01, h10, Bind.bind, Except.bind]⟩
      | some v10 =>
      cases h11 : lookupSurf md.vol_surface (k1, t1) with
      | none => exact ⟨k1, t1, by simp [reqVol, h00, h01, h10, h11, Bind.bind, Except.bind]⟩
      | some v11 =>
        rcases hmiss with h | h | h | h
        · simp [h00] at h
        · simp [h01] at h
        · simp [h10] at h
        · simp [h11] at h
  · norm_num [getVolatility, lookupSurf, bracket, bracketGo, reqVol, Bind.bind,
      Except.bind, Pure.pure, Except.pure]

/-- Witness for C3 at a concrete interior query of the 2x2 grid:
`getVolatility 130 1.25` is the bilinear blend `0.226`. -/
theorem getVolatility_bilinear_interior_witness :
    Invariant (⟨[], [((100, 1), 1/5), ((100, 2), 1/4), ((150, 1), 11/50),
      ((150, 2), 7/25)], [100, 150], [1, 2]⟩ : MarketData ℚ) ∧
    getVolatility (⟨[], [((100, 1), 1/5), ((100, 2), 1/4), ((150, 1), 11/50),
      ((150, 2), 7/25)], [100, 150], [1, 2]⟩ : MarketData ℚ) 130 (5/4) =
      .ok (.num (113/500)) := by
  have hInv : Invariant (⟨[], [((100, 1), 1/5), ((100, 2), 1/4), ((150, 1), 11/50),
      ((150, 2), 7/25)], [100, 150], [1, 2]⟩ : MarketData ℚ) := by
    refine ⟨?_, ?_, ?_, ?_, ?_, ?_⟩
    · simp [List.sorted_cons]
      norm_num
    · simp
    · simp [List.sorted_cons]
    · simp
    · intro k
      constructor
      · intro hk
        simp only [List.mem_cons, List.not_mem_nil, or_false] at hk
        rcases hk with rfl | rfl
        · exact ⟨1, 1/5, by simp⟩
        · exact ⟨1, 11/50, by simp⟩
      · rintro ⟨mm, v, hv⟩
        simp only [List.mem_cons, List.not_mem_nil, or_false, Prod.mk.injEq] at hv
        rcases hv with ⟨⟨hk, _⟩, _⟩ | ⟨⟨hk, _⟩, _⟩ | ⟨⟨hk, _⟩, _⟩ | ⟨⟨hk, _⟩, _⟩ <;>
          simp [hk]
    · intro mm
      constructor
      · intro hm
        simp only [List.mem_cons, List.not_mem_nil, or_false] at hm
        rcases hm with rfl | rfl
        · exact ⟨100, 1/5, by simp⟩
        · exact ⟨100, 1/4, by simp⟩
      · rintro ⟨k, v, hv⟩
        simp only [List.mem_cons, List.not_mem_nil, or_false, Prod.mk.injEq] at hv
        rcases hv with ⟨⟨_, hm⟩, _⟩ | ⟨⟨_, hm⟩, _⟩ | ⟨⟨_, hm⟩, _⟩ | ⟨⟨_, hm⟩, _⟩ <;>
          simp [hm]
  refine ⟨hInv, ?_⟩
  have h := (getVolatility_bilinear_interior.1 ℚ _ 130 (5/4) 100 150 1 2 [] [] [] []
      hInv rfl rfl (by norm_num) (by norm_num) (by norm_num) (by norm_num)).1
    (1/5) (1/4) (11/50) (7/25)
    (by norm_num [lookupSurf]) (by norm_num [lookupSurf])
    (by norm_num [lookupSurf]) (by norm_num [lookupSurf])
  rw [h]
  norm_num

/-- C5 (code bug): when a bracketing axis collapses the C++ divides zero
by zero, so the collapsed-axis query `getVolatility 100 1.5` on the 2x2
grid returns IEEE `NaN` instead of the intended 1-D interpolation
`0.225`; a query equal to the largest recorded strike does not collapse
the bracket (`bracket 150 [100,150] = (100,150)`, the `k_lower == end()`
collapse branch being unreachable past the bounds checks), so on a sparse
surface `getVolatility 150 1.5` demands the `k0 = 100` corners and fails
with `MissingDataPoint` instead of reusing the collapsed corner; and the
both-axes-collapse branch can only be reached when the exact key is
absent, so it always throws `std::out_of_range` from `map::at` instead of
returning the grid value. -/
theorem getVolatility_collapse_divergence :
    getVolatility (⟨[], [((100, 1), 1/5), ((100, 2), 1/4), ((150, 1), 11/50),
      ((150, 2), 7/25)], [100, 150], [1, 2]⟩ : MarketData ℚ) 100 (3/2) =
      .ok Value.nan ∧
    bracket (150 : ℚ) [100, 150] = (100, 150) ∧
    getVolatility (⟨[], [((100, 2), 1/4), ((150, 1), 11/50), ((150, 2), 7/25)],
      [100, 150], [1, 2]⟩ : MarketData ℚ) 150 (3/2) =
      .error (.missingPoint 100 1) ∧
    getVolatility (⟨[], [((100, 2), 1/4), ((150, 1), 11/50), ((150, 2), 7/25)],
      [100, 150], [1, 2]⟩ : MarketData ℚ) 100 1 = .error .atKeyMissing := by
  refine ⟨?_, ?_, ?_, ?_⟩ <;>
    norm_num [getVolatility, lookupSurf, bracket, bracketGo, reqVol, Bind.bind,
      Except.bind, Pure.pure, Except.pure]

/-- C9: `EuropeanStockOption` construction fails with `InvalidArgument`
naming the offending field whenever `strike ≤ 0`, `maturity ≤ 0`,
`spotPrice ≤ 0` or `notional ≤ 0` (checked in that order), so only
validated objects are constructed; `price` fails with `EngineNotSet`
exactly when no engine is attached and otherwise returns the engine's
unit price scaled by the notional; `greeks` fails identically when unset
and otherwise delegates with no notional scaling. -/
theorem europeanStockOption_correct :
    (∀ p : Parameters α, p.strike ≤ 0 →
      mkEuropeanStockOption p =
        .error (.invalidArgument "Strike price must be positive")) ∧
    (∀ p : Parameters α, 0 < p.strike → p.maturity ≤ 0 →
      mkEuropeanStockOption p =
        .error (.invalidArgument "Time to maturity must be positive")) ∧
    (∀ p : Parameters α, 0 < p.strike → 0 < p.maturity → p.spotPrice ≤ 0 →
      mkEuropeanStockOption p =
        .error (.invalidArgument "Stock spot price must be positive")) ∧
    (∀ p : Parameters α, 0 < p.strike → 0 < p.maturity → 0 < p.spotPrice →
      p.notional ≤ 0 →
      mkEuropeanStockOption p =
        .error (.invalidArgument "Contract notional must be positive")) ∧
    (∀ p : Parameters α, 0 < p.strike → 0 < p.maturity → 0 < p.spotPrice →
      0 < p.notional →
      mkEuropeanStockOption p = .ok ⟨p, none, emptyMarketData⟩) ∧
    (∀ (p : Parameters α) o, mkEuropeanStockOption p = .ok o →
      validate o.params = .ok ()) ∧
    (∀ o : EuropeanStockOption α, o.pricingEngine = none →
      price o = .error .engineNotSet ∧ greeks o = .error .engineNotSet) ∧
    (∀ (o : EuropeanStockOption α) e, o.pricingEngine = some e →
      price o = (e.calculatePrice o.params o.marketData).map
        (fun v => v.scale o.params.notional) ∧
      greeks o = e.calculateGreeks o.params o.marketData) ∧
    (mkEuropeanStockOption (⟨1, -100, 1, 100, true⟩ : Parameters α) =
      .error (.invalidArgument "Strike price must be positive")) := by
  refine ⟨?_, ?_, ?_, ?_, ?_, ?_, ?_, ?_, ?_⟩
  · intro p h
    simp [mkEuropeanStockOption, validate, h, Bind.bind, Except.bind]
  · intro p h1 h2
    simp [mkEuropeanStockOption, validate, not_le.mpr h1, h2, Bind.bind, Except.bind]
  · intro p h1 h2 h3
    simp [mkEuropeanStockOption, validate, not_le.mpr h1, not_le.mpr h2, h3,
      Bind.bind, Except.bind]
  · intro p h1 h2 h3 h4
    simp [mkEuropeanStockOption, validate, not_le.mpr h1, not_le.mpr h2,
      not_le.mpr h3, h4, Bind.bind, Except.bind]
  · intro p h1 h2 h3 h4
    simp [mkEuropeanStockOption, validate, not_le.mpr h1, not_le.mpr h2,
      not_le.mpr h3, not_le.mpr h4, Bind.bind, Except.bind, Pure.pure, Except.pure]
  · intro p o h
    rw [mkEuropeanStockOption] at h
    cases hv : validate p with
    | error e => rw [hv] at h; simp [Bind.bind, Except.bind] at h
    | ok u =>
      rw [hv] at h
      simp only [Bind.bind, Except.bind, Pure.pure, Except.pure,
        Except.ok.injEq] at h
      rw [← h]
      cases u
      exact hv
  · intro o h
    exact ⟨by simp [price, h], by simp [greeks, h]⟩
  · intro o e h
    exact ⟨by simp [price, h], by simp [greeks, h]⟩
  · have : (⟨1, -100, 1, 100, true⟩ : Parameters α).strike ≤ 0 := by norm_num
    simp [mkEuropeanStockOption, validate, this, Bind.bind, Except.bind]

/-- Witness for C9: the spec's `strike = -100` example is rejected over
`ℚ`, and `price` before `setPricingEngine` fails with `EngineNotSet`. -/
theorem europeanStockOption_correct_witness :
    ((-100 : ℚ) ≤ 0) ∧
    mkEuropeanStockOption (⟨1, -100, 1, 100, true⟩ : Parameters ℚ) =
      .error (.invalidArgument "Strike price must be positive") ∧
    price (⟨⟨1, 100, 1, 100, true⟩, none, emptyMarketData⟩ :
      EuropeanStockOption ℚ) = .error .engineNotSet :=
  ⟨by norm_num, (europeanStockOption_correct (α := ℚ)).1 _ (by norm_num),
    ((europeanStockOption_correct (α := ℚ)).2.2.2.2.2.2.1 _ rfl).1⟩

/-- C10: whenever `BlackScholesEngine::calculateGreeks` succeeds its
result maps exactly the keys delta, gamma, vega, theta and rho — all five
present (in `std::map` string order: delta, gamma, rho, theta, vega) and
no others — for calls and puts alike. -/
theorem calculateGreeks_keys (p : Parameters ℝ) (md : MarketData ℝ)
    (gs : List (String × Value ℝ))
    (h : BlackScholes.calculateGreeks p md = .ok gs) :
    gs.map Prod.fst = ["delta", "gamma", "rho", "theta", "vega"] ∧
    (∀ k : String, (∃ v, (k, v) ∈ gs) ↔
      k = "delta" ∨ k = "gamma" ∨ k = "vega" ∨ k = "theta" ∨ k = "rho") := by
  have hkeys : ∀ (c : Bool) (S K T r sigma : ℝ),
      (BlackScholes.greeksList S K T c r sigma).map Prod.fst =
        ["delta", "gamma", "rho", "theta", "vega"] := by
    intro c S K T r sigma; cases c <;> rfl
  rw [BlackScholes.calculateGreeks] at h
  have hgs : gs.map Prod.fst = ["delta", "gamma", "rho", "theta", "vega"] := by
    cases hr : getRiskFreeRate md doubleEps p.maturity with
    | error e => rw [hr] at h; simp [Bind.bind, Except.bind] at h
    | ok r =>
      rw [hr] at h
      cases hv : getVolatility md p.strike p.maturity with
      | error e => rw [hv] at h; simp [Bind.bind, Except.bind] at h
      | ok v =>
        rw [hv] at h
        cases v with
        | num sigma =>
          simp only [Bind.bind, Except.bind, Pure.pure, Except.pure,
            Except.ok.injEq] at h
          rw [← h, List.map_map]
          exact hkeys p.isCall p.spotPrice p.strike p.maturity r sigma
        | nan =>
          simp only [Bind.bind, Except.bind, Pure.pure, Except.pure,
            Except.ok.injEq] at h
          rw [← h, List.map_map]
          exact hkeys p.isCall p.spotPrice p.strike p.maturity r 0
  refine ⟨hgs, ?_⟩
  intro k
  have hmem : (∃ v, (k, v) ∈ gs) ↔ k ∈ gs.map Prod.fst := by
    constructor
    · rintro ⟨v, hv⟩
      exact List.mem_map.mpr ⟨(k, v), hv, rfl⟩
    · intro hk
      obtain ⟨⟨a1, a2⟩, ha, hae⟩ := List.mem_map.mp hk
      have ha1 : a1 = k := hae
      subst ha1
      exact ⟨a2, ha⟩
  rw [hmem, hgs]
  simp
  tauto

/-- Witness for C10: on a concrete one-point market the greeks map is
produced and carries exactly the five keys. -/
theorem calculateGreeks_keys_witness :
    BlackScholes.calculateGreeks (⟨1, 100, 1, 100, true⟩ : Parameters ℝ)
      (⟨[(1, 5/100)], [((100, 1), 1/5)], [100], [1]⟩ : MarketData ℝ) =
      .ok ((BlackScholes.greeksList 100 100 1 true (5/100) (1/5)).map
        (fun e => (e.1, Value.num e.2))) ∧
    ((BlackScholes.greeksList 100 100 1 true (5/100) (1/5)).map
      (fun e => (e.1, Value.num e.2))).map Prod.fst =
      ["delta", "gamma", "rho", "theta", "vega"] := by
  have hgs : BlackScholes.calculateGreeks (⟨1, 100, 1, 100, true⟩ : Parameters ℝ)
      (⟨[(1, 5/100)], [((100, 1), 1/5)], [100], [1]⟩ : MarketData ℝ) =
      .ok ((BlackScholes.greeksList 100 100 1 true (5/100) (1/5)).map
        (fun e => (e.1, Value.num e.2))) := by
    simp [BlackScholes.calculateGreeks, getRiskFreeRate, getVolatility, lookupSurf,
      Bind.bind, Except.bind, Pure.pure, Except.pure]
  exact ⟨hgs, (calculateGreeks_keys _ _ _ hgs).1⟩

lemma erf_neg (x : ℝ) : erf (-x) = - erf x := by
  unfold erf
  have h1 : (∫ t in (0:ℝ)..(-x), Real.exp (-(t ^ 2))) =
      -∫ t in (-x)..(0:ℝ), Real.exp (-(t ^ 2)) :=
    intervalIntegral.integral_symm (-x) 0
  have h2 := intervalIntegral.integral_comp_neg (a := 0) (b := x)
    (f := fun t : ℝ => Real.exp (-(t ^ 2)))
  simp only [neg_neg, neg_zero, neg_sq] at h2
  rw [h1, ← h2]
  ring

lemma N_add_neg (x : ℝ) : BlackScholes.N x + BlackScholes.N (-x) = 1 := by
  rw [BlackScholes.N, BlackScholes.N, neg_div, erf_neg]
  ring

lemma calculatePrice_eq (p : Parameters ℝ) (md : MarketData ℝ) (r sigma : ℝ)
    (hr : getRiskFreeRate md doubleEps p.maturity = .ok r)
    (hv : getVolatility md p.strike p.maturity = .ok (.num sigma)) :
    BlackScholes.calculatePrice p md = .ok (.num (
      if p.isCall then
        p.spotPrice * BlackScholes.N (BlackScholes.d1 p.spotPrice p.strike r sigma p.maturity) -
          p.strike * Real.exp (-r * p.maturity) *
            BlackScholes.N (BlackScholes.d2 p.spotPrice p.strike r sigma p.maturity)
      else
        p.strike * Real.exp (-r * p.maturity) *
          BlackScholes.N (-(BlackScholes.d2 p.spotPrice p.strike r sigma p.maturity)) -
          p.spotPrice * BlackScholes.N
            (-(BlackScholes.d1 p.spotPrice p.strike r sigma p.maturity)))) := by
  rw [BlackScholes.calculatePrice, hr]
  simp only [Bind.bind, Except.bind, hv, Pure.pure, Except.pure]
  cases hc : p.isCall <;> simp [hc]

/-- C1: for positive `S`, `K`, `T` and a market snapshot whose lookups
yield rate `r` and volatility `sigma > 0`, `calculatePrice` returns
exactly the specification's closed form
`S·N(d1) − K·e^(−rT)·N(d2)` (call) resp. `K·e^(−rT)·N(−d2) − S·N(−d1)`
(put) with `d1 = (ln(S/K) + (r + σ²/2)·T)/(σ·√T)`, `d2 = d1 − σ·√T` and
`N(x) = 0.5·(1 + erf(x/√2))` (see `specBlackScholesPrice`). -/
theorem calculatePrice_closed_form (p : Parameters ℝ) (md : MarketData ℝ)
    (r sigma : ℝ) (hS : 0 < p.spotPrice) (hK : 0 < p.strike)
    (hT : 0 < p.maturity) (hsig : 0 < sigma)
    (hr : getRiskFreeRate md doubleEps p.maturity = .ok r)
    (hv : getVolatility md p.strike p.maturity = .ok (.num sigma)) :
    BlackScholes.calculatePrice p md =
      .ok (.num (specBlackScholesPrice p.spotPrice p.strike p.maturity r sigma
        p.isCall)) := by
  rw [calculatePrice_eq p md r sigma hr hv]
  have hd1 : BlackScholes.d1 p.spotPrice p.strike r sigma p.maturity =
      (Real.log (p.spotPrice / p.strike) + (r + sigma ^ 2 / 2) * p.maturity) /
        (sigma * Real.sqrt p.maturity) := by
    rw [BlackScholes.d1]; ring_nf
  have hd2 : BlackScholes.d2 p.spotPrice p.strike r sigma p.maturity =
      (Real.log (p.spotPrice / p.strike) + (r + sigma ^ 2 / 2) * p.maturity) /
        (sigma * Real.sqrt p.maturity) - sigma * Real.sqrt p.maturity := by
    rw [BlackScholes.d2, hd1]
  rw [specBlackScholesPrice, hd1, hd2]
  simp only [BlackScholes.N]

/-- Witness for C1 at `S = K = 100`, `T = 1`, `r = 0.05`, `σ = 0.2` on a
concrete snapshot. -/
theorem calculatePrice_closed_form_witness :
    (0:ℝ) < 100 ∧ (0:ℝ) < (1/5 : ℝ) ∧
    BlackScholes.calculatePrice (⟨1, 100, 1, 100, true⟩ : Parameters ℝ)
      (⟨[(1, 5/100)], [((100, 1), 1/5)], [100], [1]⟩ : MarketData ℝ) =
      .ok (.num (specBlackScholesPrice 100 100 1 (5/100) (1/5) true)) := by
  have hr : getRiskFreeRate (⟨[(1, 5/100)], [((100, 1), 1/5)], [100], [1]⟩ :
      MarketData ℝ) doubleEps 1 = .ok (5/100) := rfl
  have hv : getVolatility (⟨[(1, 5/100)], [((100, 1), 1/5)], [100], [1]⟩ :
      MarketData ℝ) 100 1 = .ok (.num (1/5)) := by
    simp [getVolatility, lookupSurf]
  exact ⟨by norm_num, by norm_num,
    calculatePrice_closed_form _ _ (5/100) (1/5) (by norm_num) (by norm_num)
      (by norm_num) (by norm_num) hr hv⟩

/-- C4: put-call parity — two instruments identical except for `isCall`
priced against the same snapshot (rate `r`, volatility `σ > 0`) satisfy
`call − put = S − K·e^(−rT)`. -/
theorem put_call_parity (S K T notional r sigma : ℝ) (md : MarketData ℝ)
    (hsig : 0 < sigma)
    (hr : getRiskFreeRate md doubleEps T = .ok r)
    (hv : getVolatility md K T = .ok (.num sigma)) :
    ∃ c pr : ℝ,
      BlackScholes.calculatePrice ⟨notional, K, T, S, true⟩ md = .ok (.num c) ∧
      BlackScholes.calculatePrice ⟨notional, K, T, S, false⟩ md = .ok (.num pr) ∧
      c - pr = S - K * Real.exp (-r * T) := by
  have hc := calculatePrice_eq ⟨notional, K, T, S, true⟩ md r sigma hr hv
  have hp := calculatePrice_eq ⟨notional, K, T, S, false⟩ md r sigma hr hv
  norm_num at hc hp
  refine ⟨_, _, hc, hp, ?_⟩
  have h1 := N_add_neg (BlackScholes.d1 S K r sigma T)
  have h2 := N_add_neg (BlackScholes.d2 S K r sigma T)
  rw [neg_mul]
  linear_combination S * h1 - K * Real.exp (-(r * T)) * h2

/-- Witness for C4 at `S = K = 100`, `T = 1`, `r = 0.05`, `σ = 0.2`. -/
theorem put_call_parity_witness :
    (0:ℝ) < (1/5 : ℝ) ∧
    ∃ c pr : ℝ,
      BlackScholes.calculatePrice (⟨1, 100, 1, 100, true⟩ : Parameters ℝ)
        (⟨[(1, 5/100)], [((100, 1), 1/5)], [100], [1]⟩ : MarketData ℝ) =
        .ok (.num c) ∧
      BlackScholes.calculatePrice (⟨1, 100, 1, 100, false⟩ : Parameters ℝ)
        (⟨[(1, 5/100)], [((100, 1), 1/5)], [100], [1]⟩ : MarketData ℝ) =
        .ok (.num pr) ∧
      c - pr = 100 - 100 * Real.exp (-(5/100) * 1) := by
  have hr : getRiskFreeRate (⟨[(1, 5/100)], [((100, 1), 1/5)], [100], [1]⟩ :
      MarketData ℝ) doubleEps 1 = .ok (5/100) := rfl
  have hv : getVolatility (⟨[(1, 5/100)], [((100, 1), 1/5)], [100], [1]⟩ :
      MarketData ℝ) 100 1 = .ok (.num (1/5)) := by
    simp [getVolatility, lookupSurf]
  exact ⟨by norm_num,
    put_call_parity 100 100 1 1 (5/100) (1/5) _ (by norm_num) hr hv⟩

end QuantEngine
